import Mathlib

/-!
Verification of the FLO RFM customer-segmentation script (src/RFM_FLO.py).

The script derives per-customer RFM metrics from the raw order table,
discretizes recency/frequency/monetary into 1..5 scores with pd.qcut,
concatenates the recency and frequency scores into a two-digit RF code,
maps the code to a named segment through an ordered regex table
(first match wins), and finally filters two target customer groups.

The definitions below are a shallow embedding of the relevant lines of
src/RFM_FLO.py; line numbers in the doc comments refer to that file.
Missing numeric cells (pandas NaN) are `Option.none`; rational numbers
stand for the float metric values; dates are day numbers in ℤ.
-/

namespace RFM

/-- A raw row of the FLO order table.  The dataset has one row per
customer (master_id is the unique customer key).  Numeric fields are
Option-valued: `none` is a missing cell (pandas NaN/NaT). -/
structure RawRow where
  master_id : String
  last_order_date : Option ℤ
  order_num_total_ever_online : Option ℚ
  order_num_total_ever_offline : Option ℚ
  customer_value_total_ever_offline : Option ℚ
  customer_value_total_ever_online : Option ℚ

/-- NaN-propagating addition of two pandas cells: if either operand is
missing, the sum is missing (pandas never turns NaN + x into 0, and the
script raises no error for missing cells). -/
def nanAdd : Option ℚ → Option ℚ → Option ℚ
  | some a, some b => some (a + b)
  | _, _ => none

/-- Line 65: df['order_num_total'] = online + offline order counts. -/
def order_num_total (r : RawRow) : Option ℚ :=
  nanAdd r.order_num_total_ever_online r.order_num_total_ever_offline

/-- Line 66: df['customer_value_total'] = offline + online spend. -/
def customer_value_total (r : RawRow) : Option ℚ :=
  nanAdd r.customer_value_total_ever_offline r.customer_value_total_ever_online

/-- One row of the rfm table (lines 146-153) after the columns are
renamed to recency, frequency, monetary. -/
structure RfmMetrics where
  master_id : String
  recency : Option ℤ
  frequency : Option ℚ
  monetary : Option ℚ

/-- Lines 146-153: rfm = df.groupby('master_id').agg(...).  master_id is
unique in the FLO table, so each group is a single row: recency is
(today_date - last_order_date).days and the order_num_total and
customer_value_total aggregation lambdas are identity passthroughs. -/
def rfmOf (today : ℤ) (r : RawRow) : RfmMetrics :=
  ⟨r.master_id, r.last_order_date.map (fun d => today - d),
    order_num_total r, customer_value_total r⟩

/-- The whole rfm metrics table derived from the prepared order table. -/
def rfmTable (today : ℤ) (rows : List RawRow) : List RfmMetrics :=
  rows.map (rfmOf today)

/-- Sorting of a metric column, as used by the quantile computation. -/
def sortedList (xs : List ℚ) : List ℚ := List.insertionSort (· ≤ ·) xs

/-- The i-th (i = 0..5) quintile edge of the sorted column s, with
numpy's linear interpolation: quantile i/5 sits at fractional position
(i*(n-1))/5 between consecutive order statistics, so its value is
s[k] + (r/5) * (s[k+1] - s[k]) where k and r are the quotient and the
remainder of i*(n-1) divided by 5. -/
def quantile5 (s : List ℚ) (i : ℕ) : ℚ :=
  s.getD (i * (s.length - 1) / 5) 0 +
    (((i * (s.length - 1) % 5 : ℕ) : ℚ) / 5) *
      (s.getD (i * (s.length - 1) / 5 + 1) (s.getD (i * (s.length - 1) / 5) 0) -
        s.getD (i * (s.length - 1) / 5) 0)

/-- The six bin edges pd.qcut(xs, 5, ...) computes for the column xs. -/
def edgesOf (xs : List ℚ) : List ℚ :=
  (List.range 6).map (fun i => quantile5 (sortedList xs) i)

/-- The 1-based bucket pd.cut assigns to the value v for the edges es:
intervals are right-closed and the lowest edge is pulled into bucket 1
(include_lowest). -/
def bucketOf (es : List ℚ) (v : ℚ) : ℕ :=
  if v ≤ es.getD 1 0 then 1
  else if v ≤ es.getD 2 0 then 2
  else if v ≤ es.getD 3 0 then 3
  else if v ≤ es.getD 4 0 then 4
  else 5

/-- The label qcut(xs, 5, labels) attaches to the value v of column xs:
bucket i receives labels[i-1]. -/
def qcutScore (labels : List ℕ) (xs : List ℚ) (v : ℚ) : ℕ :=
  labels.getD (bucketOf (edgesOf xs) v - 1) 0

/-- pd.qcut(xs, 5, labels) (lines 162-164): with the default
duplicates='raise' it raises ValueError('Bin edges must be unique') when
the six quantile edges contain duplicates, and otherwise labels every
value of the column. -/
def qcut (xs : List ℚ) (labels : List ℕ) : Except String (List ℕ) :=
  if (edgesOf xs).Nodup then Except.ok (xs.map (fun v => qcutScore labels xs v))
  else Except.error ("Bin edges must be unique")

/-- Series.rank(method='first') (line 163): 1-based ranks, ties broken
by order of appearance, so position i ranks one above the number of
positions j holding a smaller value or an equal value appearing earlier. -/
def rankFirst (xs : List ℚ) : List ℚ :=
  (List.range xs.length).map (fun i =>
    (((List.range xs.length).countP (fun j =>
        decide (xs.getD j 0 < xs.getD i 0) ||
          (decide (xs.getD j 0 = xs.getD i 0) && decide (j < i))) + 1 : ℕ) : ℚ))

/-- Line 162: rfm["recency_score"] = qcut(recency, 5, labels=[5,4,3,2,1]),
as the score of a single value v of the batch xs. -/
def recency_score (xs : List ℚ) (v : ℚ) : ℕ := qcutScore [5, 4, 3, 2, 1] xs v

/-- Modelled from the spec (§4.2): the alternative recency scoring the
spec declares equivalent, namely quantile-cutting the negated recency
column with the ascending labels [1,2,3,4,5].  This definition is not in
src/RFM_FLO.py; it follows the spec's words and exists only to be
compared with `recency_score`. -/
def recency_score_negated (xs : List ℚ) (v : ℚ) : ℕ :=
  qcutScore [1, 2, 3, 4, 5] (xs.map (fun x => -x)) (-v)

/-- Number of values of the batch xs landing in bucket i of qcut(xs, 5). -/
def bucketCount (xs : List ℚ) (i : ℕ) : ℕ :=
  xs.countP (fun v => bucketOf (edgesOf xs) v == i)

/-- One row of seg_map (lines 176-186): the regex `[a-b][c-d]` over a
two-digit RF code, kept as two inclusive digit-character ranges, plus
the replacement segment label. -/
structure SegRule where
  lo1 : Char
  hi1 : Char
  lo2 : Char
  hi2 : Char
  seg : String

/-- seg_map, lines 176-186, in declaration order.  Note the capital R of
at_Risk: that is the literal label in the source. -/
def seg_map : List SegRule :=
  [⟨'1', '2', '1', '2', "hibernating"⟩,
   ⟨'1', '2', '3', '4', "at_Risk"⟩,
   ⟨'1', '2', '5', '5', "cant_loose"⟩,
   ⟨'3', '3', '1', '2', "about_to_sleep"⟩,
   ⟨'3', '3', '3', '3', "need_attention"⟩,
   ⟨'3', '4', '4', '5', "loyal_customers"⟩,
   ⟨'4', '4', '1', '1', "promising"⟩,
   ⟨'5', '5', '1', '1', "new_customers"⟩,
   ⟨'4', '5', '2', '3', "potential_loyalists"⟩,
   ⟨'5', '5', '4', '5', "champions"⟩]

/-- Whether one seg_map regex matches the two-character code s (a
character class `[a-b]` is an inclusive character range). -/
def ruleMatches (ru : SegRule) (s : String) : Bool :=
  match s.toList with
  | [c1, c2] => ru.lo1 ≤ c1 && c1 ≤ ru.hi1 && ru.lo2 ≤ c2 && c2 ≤ ru.hi2
  | _ => false

/-- Line 188: RF_SCORE.replace(seg_map, regex=True) on one cell.  pandas
applies the regexes in dict order; on a two-digit code the first matching
pattern replaces the whole string with its label (the labels contain no
digits, so no later pattern fires again), and a code matching no pattern
is left unchanged. -/
def applySegMap (s : String) : String :=
  match seg_map.find? (fun ru => ruleMatches ru s) with
  | some ru => ru.seg
  | none => s

/-- The ten segment labels, in rule order. -/
def segment_names : List String := seg_map.map (fun ru => ru.seg)

/-- The columns of a customer consumed by the two filtering cases, with
the two integer scores qcut produced for it. -/
structure Cust where
  master_id : String
  interested_in_categories_12 : String
  recency_score : ℕ
  frequency_score : ℕ

def dummyCust : Cust := ⟨"", "", 0, 0⟩

/-- Line 168: rfm["RF_SCORE"] = recency_score.astype(str) +
frequency_score.astype(str), per customer. -/
def RF_SCORE (c : Cust) : String :=
  Nat.repr c.recency_score ++ Nat.repr c.frequency_score

/-- A pandas Series: its name plus its master_id-indexed values. -/
structure Series where
  name : String
  vals : List (String × String)

/-- rfm["RF_SCORE"] as a Series: named RF_SCORE, holding the two-digit
codes indexed by master_id (the groupby index). -/
def rfmRF (input : List Cust) : Series :=
  ⟨"RF_SCORE", input.map (fun c => (c.master_id, RF_SCORE c))⟩

/-- Series.replace(seg_map, regex=True) maps the values cell-wise and
keeps the series name unchanged. -/
def replaceSegMap (s : Series) : Series :=
  ⟨s.name, s.vals.map (fun p => (p.1, applySegMap p.2))⟩

/-- Line 188: rfm_segment = rfm["RF_SCORE"].replace(seg_map, regex=True). -/
def rfm_segment (input : List Cust) : Series := replaceSegMap (rfmRF input)

/-- Lookup of a series value by index label (the merge key); a label
missing from the index yields the empty cell (NaN of a left merge). -/
def seriesAt (s : Series) (id : String) : String :=
  match s.vals.find? (fun p => p.1 == id) with
  | some p => p.2
  | none => ""

/-- Column names appearing in the filtering cases. -/
def colMaster : String := "master_id"

def colCats : String := "interested_in_categories_12"

def colRF : String := "RF_SCORE"

/-- A dataframe row: the assoc list column-name to cell. -/
abbrev Row := List (String × String)

/-- df[c] for one row: the cell of the first column named c. -/
def rowGet (row : Row) (c : String) : String :=
  match row.find? (fun p => p.1 == c) with
  | some p => p.2
  | none => ""

/-- The columns of df consumed downstream.  df carries no column named
RF_SCORE of its own before the merge (its columns are the raw CSV fields
plus order_num_total and customer_value_total). -/
def dfBaseRow (c : Cust) : Row :=
  [(colMaster, c.master_id), (colCats, c.interested_in_categories_12)]

/-- Lines 201-204: rfm_segment.reset_index() is renamed and merged into
df (left_on master_id, right_on customer_id, how='left'; customer_id is
dropped): each df row gains one new column, named by the series name,
holding the series value at the row's master_id. -/
def dfMerged (input : List Cust) : List Row :=
  input.map (fun c =>
    dfBaseRow c ++
      [((rfm_segment input).name, seriesAt (rfm_segment input) c.master_id)])

/-- Auxiliary for the substring test: whether pat is an initial segment
of s. -/
def startsWithChars : List Char → List Char → Bool
  | _, [] => true
  | [], _ :: _ => false
  | a :: s, b :: p => a == b && startsWithChars s p

/-- Whether pat occurs contiguously inside s. -/
def occursIn : List Char → List Char → Bool
  | [], pat => pat.isEmpty
  | a :: rest, pat => startsWithChars (a :: rest) pat || occursIn rest pat

/-- Series.str.contains with a literal pattern: the substring test. -/
def strContains (s pat : String) : Bool := occursIn s.toList pat.toList

def sKADIN : String := "KADIN"

def sERKEK : String := "ERKEK"

def sCOCUK : String := "COCUK"

/-- Line 206: df["RF_SCORE"].isin(["champions", 'loyal_customers']). -/
def case1segcond (row : Row) : Bool :=
  rowGet row colRF == "champions" || rowGet row colRF == "loyal_customers"

/-- Lines 206-207: the first filtering case (loyal segments and KADIN
category interest). -/
def flo_kadin (input : List Cust) : List Row :=
  (dfMerged input).filter (fun row =>
    case1segcond row && strContains (rowGet row colCats) sKADIN)

/-- Line 220: df["RF_SCORE"].isin(["Hibernating", 'New Customers']) -
the isin conjunct of the second case, with the source's literal casing. -/
def case2segcond (row : Row) : Bool :=
  rowGet row colRF == "Hibernating" || rowGet row colRF == "New Customers"

/-- Lines 220-222: the second filtering case.  Python & binds tighter
than |, so the row set is (isin(...) AND contains ERKEK) OR contains
COCUK. -/
def flo_male_child (input : List Cust) : List Row :=
  (dfMerged input).filter (fun row =>
    (case2segcond row && strContains (rowGet row colCats) sERKEK) ||
      strContains (rowGet row colCats) sCOCUK)

/-- Lines 225-226: the master_id column of flo_male_child, the id list
written to mc_ids.csv. -/
def flo_male_child_ids (input : List Cust) : List String :=
  (flo_male_child input).map (fun row => rowGet row colMaster)

/-- The 25 possible RF codes (each score digit ranges over 1..5). -/
def rfCodes : List String :=
  ["11", "12", "13", "14", "15",
   "21", "22", "23", "24", "25",
   "31", "32", "33", "34", "35",
   "41", "42", "43", "44", "45",
   "51", "52", "53", "54", "55"]

/-- Placeholder raw row (getD default). -/
def dummyRaw : RawRow := ⟨"", none, none, none, none, none⟩

/-- Placeholder metrics row (getD default). -/
def dummyMetrics : RfmMetrics := ⟨"", none, none, none⟩

/-- A concrete raw row whose order_num_total_ever_online cell is missing
while every other field is present. -/
def missingRow : RawRow := ⟨"c1", some 5, none, some 2, some 3, some 4⟩

/-! ## Theorems -/

/-- nanAdd propagates a missing left operand. -/
theorem nanAdd_none_left (x : Option ℚ) : nanAdd none x = none := by
  cases x <;> rfl

/-- On each of the 25 RF codes the classifier finds a rule, outputs one
of the ten labels, changes the code, and outputs neither of the two
capitalized labels the second filtering case looks for. -/
theorem segMap_code_facts :
    ∀ s ∈ rfCodes,
      (seg_map.find? (fun ru => ruleMatches ru s)).isSome = true ∧
      applySegMap s ∈ segment_names ∧
      applySegMap s ≠ s ∧
      applySegMap s ≠ "Hibernating" ∧
      applySegMap s ≠ "New Customers" := by decide

/-- A pair of in-range score digits concatenates to one of the 25 codes. -/
theorem reprPair_mem_rfCodes (r f : ℕ) (h1 : 1 ≤ r) (h2 : r ≤ 5)
    (h3 : 1 ≤ f) (h4 : f ≤ 5) : (Nat.repr r ++ Nat.repr f) ∈ rfCodes := by
  interval_cases r <;> interval_cases f <;> decide

/-- Claim C1 (counterexample): the source label for the at-risk rule is
at_Risk with a capital R, so codes in [1-2][3-4] are not assigned the
lowercase label at_risk stated by the claim: code 13 already refutes it. -/
theorem c1_at_risk_counterexample :
    applySegMap ("13") = ("at_Risk") ∧ applySegMap ("13") ≠ ("at_risk") := by decide

/-- Claim C1 (amended): every rf_code with first digit in {1,2} and
second digit in {3,4} is assigned the segment at_Risk (the source's
literal casing), and code 33 is assigned need_attention by its dedicated
rule of the ordered table. -/
theorem c1_first_match_amended :
    applySegMap ("13") = ("at_Risk") ∧ applySegMap ("14") = ("at_Risk") ∧
    applySegMap ("23") = ("at_Risk") ∧ applySegMap ("24") = ("at_Risk") ∧
    applySegMap ("33") = ("need_attention") := by decide

/-- Claim C2: on every one of the 25 possible rf_code values some rule of
the ten-row table matches (full coverage, so the classifier is total),
the returned segment is one of the ten labels of the table, and repeated
evaluation on the same code returns the same segment (the classifier is
a pure function of the code, so this equation is definitional). -/
theorem c2_classifier_total_on_codes :
    ∀ s ∈ rfCodes,
      (seg_map.find? (fun ru => ruleMatches ru s)).isSome = true ∧
      applySegMap s ∈ segment_names ∧
      applySegMap s = applySegMap s := by decide

/-- Claim C2 (witness): the coverage/range/determinism facts evaluated at
the concrete code 11. -/
theorem c2_classifier_total_on_codes_witness :
    (seg_map.find? (fun ru => ruleMatches ru ("11"))).isSome = true ∧
    applySegMap ("11") ∈ segment_names ∧
    applySegMap ("11") = applySegMap ("11") :=
  c2_classifier_total_on_codes ("11") (by decide)

/-- Claim C3 (counterexample): on a batch holding one row whose
order_num_total_ever_online cell is absent, the metric derivation
returns a metrics table (no error of any kind aborts the batch) whose
frequency cell is null: the null propagates instead of raising a
MissingFieldError, and is not defaulted to zero.  No MissingFieldError
exists anywhere in the source. -/
theorem c3_missing_field_counterexample :
    rfmTable 15 [missingRow] = [⟨"c1", some 10, none, some 7⟩] := by
  norm_num [rfmTable, rfmOf, order_num_total, customer_value_total, nanAdd,
    missingRow, Option.map]

/-- Claim C3 (amended): a row with an absent order_num_total_ever_online
cell does not abort the batch: the derived table keeps one output row
per input row, and the affected customer's frequency is null (NaN
propagation), not zero and not an error. -/
theorem c3_missing_field_amended (today : ℤ) (rows : List RawRow) (i : ℕ)
    (hi : i < rows.length)
    (hmiss : (rows.getD i dummyRaw).order_num_total_ever_online = none) :
    (rfmTable today rows).length = rows.length ∧
    ((rfmTable today rows).getD i dummyMetrics).frequency = none := by
  constructor
  · simp [rfmTable]
  · have hlen : i < (rfmTable today rows).length := by simpa [rfmTable] using hi
    rw [List.getD_eq_getElem _ dummyMetrics hlen]
    have : (rfmTable today rows)[i] = rfmOf today (rows.getD i dummyRaw) := by
      rw [List.getD_eq_getElem rows dummyRaw hi]
      simp [rfmTable]
    rw [this]
    show order_num_total (rows.getD i dummyRaw) = none
    rw [order_num_total, hmiss]
    exact nanAdd_none_left _

/-- Claim C3 (witness): the amended statement evaluated on the concrete
one-row batch with the absent cell. -/
theorem c3_missing_field_amended_witness :
    (rfmTable 15 [missingRow]).length = 1 ∧
    ((rfmTable 15 [missingRow]).getD 0 dummyMetrics).frequency = none :=
  c3_missing_field_amended 15 [missingRow] 0 (by decide) (by rfl)

/-- The series produced by the replace keeps the name RF_SCORE. -/
theorem rfm_segment_name (input : List Cust) : (rfm_segment input).name = colRF := rfl

/-- The values of rfm_segment: the classified code of each customer,
indexed by master_id. -/
theorem rfm_segment_vals (input : List Cust) :
    (rfm_segment input).vals =
      input.map (fun c => (c.master_id, applySegMap (RF_SCORE c))) := by
  simp [rfm_segment, replaceSegMap, rfmRF, List.map_map, Function.comp]

/-- The i-th merged df row: the base columns of customer i plus the one
column the merge adds. -/
theorem dfMerged_getD (input : List Cust) (i : ℕ) (hi : i < input.length) :
    (dfMerged input).getD i [] =
      dfBaseRow (input.getD i dummyCust) ++
        [((rfm_segment input).name,
          seriesAt (rfm_segment input) (input.getD i dummyCust).master_id)] := by
  have hlen : i < (dfMerged input).length := by simpa [dfMerged] using hi
  rw [List.getD_eq_getElem _ _ hlen, List.getD_eq_getElem input dummyCust hi]
  simp [dfMerged]

/-- Reading master_id off a merged row. -/
theorem rowGet_merged_master (c : Cust) (v : String) :
    rowGet (dfBaseRow c ++ [(colRF, v)]) colMaster = c.master_id := by
  simp [rowGet, dfBaseRow, colMaster, colCats, colRF, List.find?]

/-- Reading interested_in_categories_12 off a merged row. -/
theorem rowGet_merged_cats (c : Cust) (v : String) :
    rowGet (dfBaseRow c ++ [(colRF, v)]) colCats = c.interested_in_categories_12 := by
  simp [rowGet, dfBaseRow, colMaster, colCats, colRF, List.find?]

/-- Reading the merged RF_SCORE column: df itself has no column of that
name, so the lookup resolves to the column brought in by the merge. -/
theorem rowGet_merged_rf (c : Cust) (v : String) :
    rowGet (dfBaseRow c ++ [(colRF, v)]) colRF = v := by
  simp [rowGet, dfBaseRow, colMaster, colCats, colRF, List.find?]

/-- A series value of rfm_segment is either the empty cell (index miss)
or the classified code of some input customer. -/
theorem seriesAt_rfm_segment_mem (input : List Cust) (id : String) :
    seriesAt (rfm_segment input) id = "" ∨
      ∃ c ∈ input, seriesAt (rfm_segment input) id = applySegMap (RF_SCORE c) := by
  unfold seriesAt
  cases h : (rfm_segment input).vals.find? (fun p => p.1 == id) with
  | none => exact Or.inl rfl
  | some p =>
    refine Or.inr ?_
    have hp := List.mem_of_find?_eq_some h
    rw [rfm_segment_vals] at hp
    obtain ⟨c, hc, hpc⟩ := List.mem_map.mp hp
    exact ⟨c, hc, by rw [← hpc]⟩

/-- Looking up the i-th key of an assoc list of distinct keys built by
mapping over input returns the i-th value. -/
theorem find_assoc_map (g : Cust → String) :
    ∀ (input : List Cust), (input.map (fun c => c.master_id)).Nodup →
      ∀ i, i < input.length →
        (input.map (fun c => (c.master_id, g c))).find?
            (fun p => p.1 == (input.getD i dummyCust).master_id) =
          some ((input.getD i dummyCust).master_id, g (input.getD i dummyCust)) := by
  intro input
  induction input with
  | nil => intro _ i hi; simp at hi
  | cons c0 rest ih =>
    intro hN i hi
    rw [List.map_cons, List.nodup_cons] at hN
    obtain ⟨hni, hrest⟩ := hN
    cases i with
    | zero => simp [List.find?]
    | succ j =>
      have hj : j < rest.length := by simpa using hi
      have hget : (c0 :: rest).getD (j + 1) dummyCust = rest.getD j dummyCust := rfl
      rw [hget, List.map_cons, List.find?_cons_of_neg, ih hrest j hj]
      have hmem : (rest.getD j dummyCust).master_id ∈ rest.map (fun c => c.master_id) := by
        refine List.mem_map.mpr ⟨rest.getD j dummyCust, ?_, rfl⟩
        rw [List.getD_eq_getElem rest dummyCust hj]
        exact List.getElem_mem hj
      have hne : c0.master_id ≠ (rest.getD j dummyCust).master_id := by
        intro he
        exact hni (he ▸ hmem)
      simpa using hne

/-- With distinct master_ids, the merge looks customer i's own segment
label up. -/
theorem seriesAt_rfm_segment_getD (input : List Cust)
    (hN : (input.map (fun c => c.master_id)).Nodup) (i : ℕ) (hi : i < input.length) :
    seriesAt (rfm_segment input) (input.getD i dummyCust).master_id =
      applySegMap (RF_SCORE (input.getD i dummyCust)) := by
  unfold seriesAt
  rw [rfm_segment_vals,
    find_assoc_map (fun c => applySegMap (RF_SCORE c)) input hN i hi]

/-- Claim C5: the isin conjunct of the second filtering case compares
the merged RF_SCORE column (which holds the classifier's labels) against
the capitalized strings Hibernating and New Customers; no classifier
label equals either string, so the conjunct selects zero rows. -/
theorem c5_case2_isin_selects_no_row (input : List Cust)
    (hdig : ∀ c ∈ input, 1 ≤ c.recency_score ∧ c.recency_score ≤ 5 ∧
      1 ≤ c.frequency_score ∧ c.frequency_score ≤ 5) :
    (dfMerged input).filter case2segcond = [] := by
  rw [List.filter_eq_nil_iff]
  intro row hrow
  obtain ⟨c, hc, rfl⟩ := List.mem_map.mp hrow
  have hrf : rowGet
      (dfBaseRow c ++
        [((rfm_segment input).name, seriesAt (rfm_segment input) c.master_id)]) colRF =
      seriesAt (rfm_segment input) c.master_id := by
    rw [rfm_segment_name]; exact rowGet_merged_rf c _
  rcases seriesAt_rfm_segment_mem input c.master_id with h0 | ⟨c', hc', hv⟩
  · simp [case2segcond, colRF] at hrf ⊢
    rw [hrf, h0]
    simp
  · obtain ⟨hr1, hr2, hf1, hf2⟩ := hdig c' hc'
    obtain ⟨-, -, -, hH, hNC⟩ :=
      segMap_code_facts (RF_SCORE c') (reprPair_mem_rfCodes _ _ hr1 hr2 hf1 hf2)
    simp [case2segcond, colRF] at hrf ⊢
    rw [hrf, hv]
    simp [hH, hNC]

/-- Claim C5 (witness): the empty selection on a concrete one-customer
batch. -/
theorem c5_case2_isin_selects_no_row_witness :
    (dfMerged [⟨"a1", "AAA", 1, 1⟩]).filter case2segcond = [] :=
  c5_case2_isin_selects_no_row [⟨"a1", "AAA", 1, 1⟩] (by decide)

/-- Claim C6: the series the replace produces keeps the name RF_SCORE,
so after reset_index and the merge the df column named RF_SCORE holds,
for every customer, the assigned segment label (one of the ten names,
not the two-digit code), and the first case's isin test on that column
holds exactly for the customers classified champions or
loyal_customers. -/
theorem c6_merged_rf_score_is_segment (input : List Cust)
    (hN : (input.map (fun c => c.master_id)).Nodup)
    (hdig : ∀ c ∈ input, 1 ≤ c.recency_score ∧ c.recency_score ≤ 5 ∧
      1 ≤ c.frequency_score ∧ c.frequency_score ≤ 5)
    (i : ℕ) (hi : i < input.length) :
    rowGet ((dfMerged input).getD i []) colRF =
        applySegMap (RF_SCORE (input.getD i dummyCust)) ∧
      applySegMap (RF_SCORE (input.getD i dummyCust)) ∈ segment_names ∧
      applySegMap (RF_SCORE (input.getD i dummyCust)) ≠
        RF_SCORE (input.getD i dummyCust) ∧
      (case1segcond ((dfMerged input).getD i []) = true ↔
        applySegMap (RF_SCORE (input.getD i dummyCust)) = "champions" ∨
          applySegMap (RF_SCORE (input.getD i dummyCust)) = "loyal_customers") := by
  have hrow := dfMerged_getD input i hi
  have hrf : rowGet ((dfMerged input).getD i []) colRF =
      applySegMap (RF_SCORE (input.getD i dummyCust)) := by
    rw [hrow, rfm_segment_name, rowGet_merged_rf,
      seriesAt_rfm_segment_getD input hN i hi]
  have hcmem : input.getD i dummyCust ∈ input := by
    rw [List.getD_eq_getElem input dummyCust hi]
    exact List.getElem_mem hi
  obtain ⟨hr1, hr2, hf1, hf2⟩ := hdig _ hcmem
  obtain ⟨-, hmem, hne, -, -⟩ :=
    segMap_code_facts (RF_SCORE (input.getD i dummyCust))
      (reprPair_mem_rfCodes _ _ hr1 hr2 hf1 hf2)
  refine ⟨hrf, hmem, hne, ?_⟩
  rw [case1segcond, hrf]
  simp

/-- Claim C6 (witness): the merged-column facts evaluated on a concrete
two-customer batch (a champion 54 and a hibernating 11). -/
theorem c6_merged_rf_score_is_segment_witness :
    rowGet ((dfMerged [⟨"a1", "KADIN", 5, 4⟩, ⟨"b2", "AAA", 1, 1⟩]).getD 0 []) colRF =
        applySegMap (RF_SCORE (([⟨"a1", "KADIN", 5, 4⟩,
          ⟨"b2", "AAA", 1, 1⟩] : List Cust).getD 0 dummyCust)) ∧
      applySegMap (RF_SCORE (([⟨"a1", "KADIN", 5, 4⟩,
          ⟨"b2", "AAA", 1, 1⟩] : List Cust).getD 0 dummyCust)) ∈ segment_names ∧
      applySegMap (RF_SCORE (([⟨"a1", "KADIN", 5, 4⟩,
          ⟨"b2", "AAA", 1, 1⟩] : List Cust).getD 0 dummyCust)) ≠
        RF_SCORE (([⟨"a1", "KADIN", 5, 4⟩, ⟨"b2", "AAA", 1, 1⟩] : List Cust).getD 0 dummyCust) ∧
      (case1segcond ((dfMerged [⟨"a1", "KADIN", 5, 4⟩, ⟨"b2", "AAA", 1, 1⟩]).getD 0 []) = true ↔
        applySegMap (RF_SCORE (([⟨"a1", "KADIN", 5, 4⟩,
            ⟨"b2", "AAA", 1, 1⟩] : List Cust).getD 0 dummyCust)) = "champions" ∨
          applySegMap (RF_SCORE (([⟨"a1", "KADIN", 5, 4⟩,
            ⟨"b2", "AAA", 1, 1⟩] : List Cust).getD 0 dummyCust)) = "loyal_customers") :=
  c6_merged_rf_score_is_segment [⟨"a1", "KADIN", 5, 4⟩, ⟨"b2", "AAA", 1, 1⟩]
    (by decide) (by decide) 0 (by decide)

/-- Claim C10: in the second case's predicate the conjunction binds
tighter than the disjunction ((isin AND ERKEK) OR COCUK), so every
customer whose category interests contain COCUK lands in the output id
list, whatever the segment column holds and whether or not ERKEK is
present. -/
theorem c10_cocuk_always_selected (input : List Cust) (i : ℕ) (hi : i < input.length)
    (hcocuk : strContains
      (input.getD i dummyCust).interested_in_categories_12 sCOCUK = true) :
    (∀ row : Row, (row ∈ flo_male_child input ↔ row ∈ dfMerged input ∧
        ((case2segcond row = true ∧ strContains (rowGet row colCats) sERKEK = true) ∨
          strContains (rowGet row colCats) sCOCUK = true))) ∧
      (input.getD i dummyCust).master_id ∈ flo_male_child_ids input := by
  constructor
  · intro row
    rw [flo_male_child, List.mem_filter]
    simp [Bool.and_eq_true, Bool.or_eq_true]
  · have hrow := dfMerged_getD input i hi
    have hmem : (dfMerged input).getD i [] ∈ dfMerged input := by
      have hlen : i < (dfMerged input).length := by simpa [dfMerged] using hi
      rw [List.getD_eq_getElem _ _ hlen]
      exact List.getElem_mem hlen
    have hcats : rowGet ((dfMerged input).getD i []) colCats =
        (input.getD i dummyCust).interested_in_categories_12 := by
      rw [hrow, rfm_segment_name]; exact rowGet_merged_cats _ _
    have hmaster : rowGet ((dfMerged input).getD i []) colMaster =
        (input.getD i dummyCust).master_id := by
      rw [hrow, rfm_segment_name]; exact rowGet_merged_master _ _
    refine List.mem_map.mpr ⟨(dfMerged input).getD i [], ?_, hmaster⟩
    rw [flo_male_child, List.mem_filter]
    refine ⟨hmem, ?_⟩
    rw [hcats, hcocuk]
    simp

/-- Buckets are always in 1..5. -/
theorem bucketOf_bounds (es : List ℚ) (v : ℚ) : 1 ≤ bucketOf es v ∧ bucketOf es v ≤ 5 := by
  rw [bucketOf]; split_ifs <;> omega

/-- Bucket assignment is monotone in the value (a later bucket needs a
larger value, whatever the edges are). -/
theorem bucketOf_mono (es : List ℚ) (v w : ℚ) (h : v ≤ w) :
    bucketOf es v ≤ bucketOf es w := by
  rw [bucketOf, bucketOf]
  split_ifs <;> first | omega | linarith

/-- The descending label list of the recency cut, indexed by bucket. -/
theorem labels_desc_getD (i : ℕ) (h1 : 1 ≤ i) (h2 : i ≤ 5) :
    ([5, 4, 3, 2, 1] : List ℕ).getD (i - 1) 0 = 6 - i := by
  interval_cases i <;> rfl

/-- The ascending label list of the frequency/monetary cuts, indexed by
bucket. -/
theorem labels_asc_getD (i : ℕ) (h1 : 1 ≤ i) (h2 : i ≤ 5) :
    ([1, 2, 3, 4, 5] : List ℕ).getD (i - 1) 0 = i := by
  interval_cases i <;> rfl

/-- Inversion of a successful qcut. -/
theorem qcut_ok_eq (xs : List ℚ) (labels : List ℕ) (ss : List ℕ)
    (h : qcut xs labels = Except.ok ss) :
    ss = xs.map (fun v => qcutScore labels xs v) := by
  rw [qcut] at h
  split_ifs at h
  injection h with h2
  exact h2.symm

/-- getD through a score map. -/
theorem getD_map_score (xs : List ℚ) (f : ℚ → ℕ) (a : ℕ) (ha : a < xs.length) :
    (xs.map f).getD a 0 = f (xs.getD a 0) := by
  rw [List.getD_eq_getElem _ _ (by simpa using ha), List.getD_eq_getElem xs 0 ha,
    List.getElem_map]

/-- The i-th first-method rank, explicitly. -/
theorem rankFirst_getD (xs : List ℚ) (i : ℕ) (hi : i < xs.length) :
    (rankFirst xs).getD i 0 =
      (((List.range xs.length).countP (fun j =>
        decide (xs.getD j 0 < xs.getD i 0) ||
          (decide (xs.getD j 0 = xs.getD i 0) && decide (j < i))) + 1 : ℕ) : ℚ) := by
  rw [rankFirst]
  rw [List.getD_eq_getElem _ _ (by simpa using hi), List.getElem_map, List.getElem_range]

/-- First-method ranking is (weakly) monotone in the raw value. -/
theorem rankFirst_mono (xs : List ℚ) (a b : ℕ) (ha : a < xs.length) (hb : b < xs.length)
    (h : xs.getD a 0 < xs.getD b 0) :
    (rankFirst xs).getD a 0 ≤ (rankFirst xs).getD b 0 := by
  rw [rankFirst_getD xs a ha, rankFirst_getD xs b hb]
  have hc : (List.range xs.length).countP (fun j =>
        decide (xs.getD j 0 < xs.getD a 0) ||
          (decide (xs.getD j 0 = xs.getD a 0) && decide (j < a))) ≤
      (List.range xs.length).countP (fun j =>
        decide (xs.getD j 0 < xs.getD b 0) ||
          (decide (xs.getD j 0 = xs.getD b 0) && decide (j < b))) := by
    apply List.countP_mono_left
    intro j _ hp
    simp only [Bool.or_eq_true, Bool.and_eq_true, decide_eq_true_eq] at hp ⊢
    rcases hp with hlt | ⟨heq, _⟩
    · exact Or.inl (lt_trans hlt h)
    · exact Or.inl (heq ▸ h)
  exact_mod_cast Nat.succ_le_succ hc

/-- Claim C8: within one scored batch the scores are monotone in the raw
metrics: a smaller recency gets a score at least as large (reversed
labels), a smaller frequency gets a rank at most as large and hence a
score at most as large, and a smaller monetary value gets a score at
most as large. -/
theorem c8_quantile_scores_monotone (xs : List ℚ) (a b : ℕ)
    (ha : a < xs.length) (hb : b < xs.length) :
    (∀ ss, qcut xs [5, 4, 3, 2, 1] = Except.ok ss →
        xs.getD a 0 < xs.getD b 0 → ss.getD b 0 ≤ ss.getD a 0) ∧
      (∀ ss, qcut (rankFirst xs) [1, 2, 3, 4, 5] = Except.ok ss →
        xs.getD a 0 < xs.getD b 0 → ss.getD a 0 ≤ ss.getD b 0) ∧
      (∀ ss, qcut xs [1, 2, 3, 4, 5] = Except.ok ss →
        xs.getD a 0 < xs.getD b 0 → ss.getD a 0 ≤ ss.getD b 0) := by
  refine ⟨?_, ?_, ?_⟩
  · intro ss hok hab
    rw [qcut_ok_eq xs _ ss hok, getD_map_score xs _ a ha, getD_map_score xs _ b hb]
    rw [qcutScore, qcutScore]
    obtain ⟨h1a, h2a⟩ := bucketOf_bounds (edgesOf xs) (xs.getD a 0)
    obtain ⟨h1b, h2b⟩ := bucketOf_bounds (edgesOf xs) (xs.getD b 0)
    rw [labels_desc_getD _ h1a h2a, labels_desc_getD _ h1b h2b]
    have := bucketOf_mono (edgesOf xs) (xs.getD a 0) (xs.getD b 0) (le_of_lt hab)
    omega
  · intro ss hok hab
    have hra : a < (rankFirst xs).length := by simpa [rankFirst] using ha
    have hrb : b < (rankFirst xs).length := by simpa [rankFirst] using hb
    rw [qcut_ok_eq _ _ ss hok, getD_map_score _ _ a hra, getD_map_score _ _ b hrb]
    rw [qcutScore, qcutScore]
    obtain ⟨h1a, h2a⟩ :=
      bucketOf_bounds (edgesOf (rankFirst xs)) ((rankFirst xs).getD a 0)
    obtain ⟨h1b, h2b⟩ :=
      bucketOf_bounds (edgesOf (rankFirst xs)) ((rankFirst xs).getD b 0)
    rw [labels_asc_getD _ h1a h2a, labels_asc_getD _ h1b h2b]
    exact bucketOf_mono _ _ _ (rankFirst_mono xs a b ha hb hab)
  · intro ss hok hab
    rw [qcut_ok_eq xs _ ss hok, getD_map_score xs _ a ha, getD_map_score xs _ b hb]
    rw [qcutScore, qcutScore]
    obtain ⟨h1a, h2a⟩ := bucketOf_bounds (edgesOf xs) (xs.getD a 0)
    obtain ⟨h1b, h2b⟩ := bucketOf_bounds (edgesOf xs) (xs.getD b 0)
    rw [labels_asc_getD _ h1a h2a, labels_asc_getD _ h1b h2b]
    exact bucketOf_mono _ _ _ (le_of_lt hab)

/-- Claim C8 (witness): the three monotonicity facts on the concrete
batch [3,1,2,5,4] at positions 1 and 3 (values 1 < 5): recency scores
[3,5,4,1,2], rank-based frequency scores and monetary scores
[3,1,2,5,4]. -/
theorem c8_quantile_scores_monotone_witness :
    (([3, 5, 4, 1, 2] : List ℕ).getD 3 0 ≤ ([3, 5, 4, 1, 2] : List ℕ).getD 1 0) ∧
      (([3, 1, 2, 5, 4] : List ℕ).getD 1 0 ≤ ([3, 1, 2, 5, 4] : List ℕ).getD 3 0) ∧
      (([3, 1, 2, 5, 4] : List ℕ).getD 1 0 ≤ ([3, 1, 2, 5, 4] : List ℕ).getD 3 0) := by
  obtain ⟨hR, hF, hM⟩ :=
    c8_quantile_scores_monotone [3, 1, 2, 5, 4] 1 3 (by norm_num) (by norm_num)
  have he : edgesOf [3, 1, 2, 5, 4] = [1, 9/5, 13/5, 17/5, 21/5, 5] := by
    norm_num [edgesOf, quantile5, sortedList, List.insertionSort, List.orderedInsert,
      List.range_succ]
  have hrk : rankFirst [3, 1, 2, 5, 4] = [3, 1, 2, 5, 4] := by
    norm_num [rankFirst, List.range_succ]
  refine ⟨hR [3, 5, 4, 1, 2] ?_ (by norm_num),
    hF [3, 1, 2, 5, 4] ?_ (by norm_num), hM [3, 1, 2, 5, 4] ?_ (by norm_num)⟩
  · rw [qcut, he]
    norm_num [qcutScore, bucketOf, he]
  · rw [hrk, qcut, he]
    norm_num [qcutScore, bucketOf, he, hrk]
  · rw [qcut, he]
    norm_num [qcutScore, bucketOf, he]

/-- The sort used by the quantile computation is sorted. -/
theorem sortedList_sorted (xs : List ℚ) : List.Sorted (· ≤ ·) (sortedList xs) :=
  List.sorted_insertionSort (· ≤ ·) xs

/-- The sort is a permutation of the batch. -/
theorem sortedList_perm (xs : List ℚ) : List.Perm (sortedList xs) xs :=
  List.perm_insertionSort (· ≤ ·) xs

/-- Sorting preserves the batch size. -/
theorem sortedList_length (xs : List ℚ) : (sortedList xs).length = xs.length :=
  (sortedList_perm xs).length_eq

/-- A tie-free batch sorts strictly. -/
theorem sortedList_strict (xs : List ℚ) (h : xs.Nodup) :
    (sortedList xs).Pairwise (· < ·) := by
  have hnd : (sortedList xs).Nodup := ((sortedList_perm xs).nodup_iff).mpr h
  have hle : (sortedList xs).Pairwise (· ≤ ·) := sortedList_sorted xs
  exact (hle.and hnd).imp (fun hx => lt_of_le_of_ne hx.1 hx.2)

/-- getD is monotone on a weakly sorted list. -/
theorem sorted_getD_mono (s : List ℚ) (hs : List.Sorted (· ≤ ·) s) (i j : ℕ)
    (hij : i ≤ j) (hj : j < s.length) : s.getD i 0 ≤ s.getD j 0 := by
  rcases Nat.eq_or_lt_of_le hij with rfl | hlt
  · exact le_refl _
  · rw [List.getD_eq_getElem s 0 (lt_trans hlt hj), List.getD_eq_getElem s 0 hj]
    exact List.pairwise_iff_getElem.mp hs i j _ hj hlt

/-- getD is strictly monotone on a strictly sorted list. -/
theorem strict_getD_lt (s : List ℚ) (hs : s.Pairwise (· < ·)) (i j : ℕ)
    (hij : i < j) (hj : j < s.length) : s.getD i 0 < s.getD j 0 := by
  rw [List.getD_eq_getElem s 0 (lt_trans hij hj), List.getD_eq_getElem s 0 hj]
  exact List.pairwise_iff_getElem.mp hs i j _ hj hij

/-- Every batch value is at most the top quantile edge (the maximum). -/
theorem mem_le_quantile5_top (xs : List ℚ) (v : ℚ) (hv : v ∈ xs) :
    v ≤ quantile5 (sortedList xs) 5 := by
  have hvs : v ∈ sortedList xs := ((sortedList_perm xs).mem_iff).mpr hv
  obtain ⟨j, hj, hjv⟩ := List.mem_iff_getElem.mp hvs
  have hk : 5 * ((sortedList xs).length - 1) / 5 = (sortedList xs).length - 1 :=
    Nat.mul_div_cancel_left _ (by norm_num)
  have hr : 5 * ((sortedList xs).length - 1) % 5 = 0 := Nat.mul_mod_right 5 _
  rw [quantile5, hk, hr]
  simp only [Nat.cast_zero, zero_div, zero_mul, add_zero]
  rw [← hjv, ← List.getD_eq_getElem (sortedList xs) 0 hj]
  exact sorted_getD_mono _ (sortedList_sorted xs) j _ (by omega) (by omega)

/-- The k-th bin edge is the k-th quantile. -/
theorem edgesOf_getD (xs : List ℚ) (k : ℕ) (hk : k ≤ 5) :
    (edgesOf xs).getD k 0 = quantile5 (sortedList xs) k := by
  interval_cases k <;> rfl

/-- Claim C4 (counterexample): the batch [0,1,2,2,3,4,5] has a raw-value
tie (two 2s) and yields only four non-empty buckets (bucket 3 is empty),
yet its six quantile edges are pairwise distinct, so qcut succeeds and
returns scores: no DegenerateBinningError, no error of any kind. -/
theorem c4_degenerate_binning_counterexample :
    ¬ ([0, 1, 2, 2, 3, 4, 5] : List ℚ).Nodup ∧
      qcut [0, 1, 2, 2, 3, 4, 5] [1, 2, 3, 4, 5] = Except.ok [1, 1, 2, 2, 4, 5, 5] ∧
      bucketCount [0, 1, 2, 2, 3, 4, 5] 3 = 0 := by
  have he : edgesOf [0, 1, 2, 2, 3, 4, 5] = [0, 6/5, 2, 13/5, 19/5, 5] := by
    norm_num [edgesOf, quantile5, sortedList, List.insertionSort, List.orderedInsert,
      List.range_succ]
  refine ⟨by norm_num, ?_, ?_⟩
  · rw [qcut, he]
    norm_num [qcutScore, bucketOf, he]
  · rw [bucketCount]
    norm_num [he, bucketOf, List.countP_cons]

/-- Claim C4 (amended): when ties (or any value pattern) make two
adjacent quantile edges coincide, the corresponding bucket is empty and
qcut does fail - but with pandas' untyped ValueError('Bin edges must be
unique'), not a typed DegenerateBinningError; and ties that keep the six
edges distinct while leaving a bucket empty (see the counterexample) are
not detected at all. -/
theorem c4_duplicate_edges_raise (xs : List ℚ) (labels : List ℕ) (i : ℕ)
    (h1 : 1 ≤ i) (h4 : i ≤ 4)
    (hdup : quantile5 (sortedList xs) i = quantile5 (sortedList xs) (i + 1)) :
    qcut xs labels = Except.error ("Bin edges must be unique") ∧
      bucketCount xs (i + 1) = 0 := by
  have hnd : ¬ (edgesOf xs).Nodup := by
    intro hnodup
    have hlen : (edgesOf xs).length = 6 := by simp [edgesOf]
    have hne : (edgesOf xs).getD i 0 ≠ (edgesOf xs).getD (i + 1) 0 := by
      rw [List.getD_eq_getElem _ 0 (by omega), List.getD_eq_getElem _ 0 (by omega)]
      exact List.pairwise_iff_getElem.mp hnodup i (i + 1) (by omega) (by omega) (by omega)
    rw [edgesOf_getD xs i (by omega), edgesOf_getD xs (i + 1) (by omega)] at hne
    exact hne hdup
  refine ⟨by rw [qcut, if_neg hnd], ?_⟩
  rw [bucketCount]
  apply List.countP_eq_zero.mpr
  intro v hv
  simp only [beq_iff_eq]
  intro hb
  have hmax := mem_le_quantile5_top xs v hv
  have e1 := edgesOf_getD xs 1 (by omega)
  have e2 := edgesOf_getD xs 2 (by omega)
  have e3 := edgesOf_getD xs 3 (by omega)
  have e4 := edgesOf_getD xs 4 (by omega)
  rw [bucketOf] at hb
  interval_cases i
  · split_ifs at hb with hA hB <;> try omega
    rw [e1, hdup, ← e2] at hA
    exact hA hB
  · split_ifs at hb with hA hB hC <;> try omega
    rw [e2, hdup, ← e3] at hB
    exact hB hC
  · split_ifs at hb with hA hB hC hD <;> try omega
    rw [e3, hdup, ← e4] at hC
    exact hC hD
  · split_ifs at hb with hA hB hC hD <;> try omega
    rw [e4, hdup] at hD
    exact hD hmax

/-- Claim C4 (witness): on the tied batch [1,1,2] edges 1 and 2 coincide,
bucket 2 is empty, and qcut raises the untyped pandas error. -/
theorem c4_duplicate_edges_raise_witness :
    qcut [1, 1, 2] [1, 2, 3, 4, 5] = Except.error ("Bin edges must be unique") ∧
      bucketCount [1, 1, 2] 2 = 0 :=
  c4_duplicate_edges_raise [1, 1, 2] [1, 2, 3, 4, 5] 1 (by norm_num) (by norm_num)
    (by norm_num [quantile5, sortedList, List.insertionSort, List.orderedInsert])

/-- The default argument of getD is irrelevant in bounds. -/
theorem getD_default_irrel (s : List ℚ) (k : ℕ) (d d' : ℚ) (h : k < s.length) :
    s.getD k d = s.getD k d' := by
  rw [List.getD_eq_getElem s d h, List.getD_eq_getElem s d' h]

/-- A quantile edge is at least the order statistic at its lower index. -/
theorem quantile5_lower (s : List ℚ) (hs : List.Sorted (· ≤ ·) s) (i : ℕ)
    (hK : i * (s.length - 1) / 5 < s.length) :
    s.getD (i * (s.length - 1) / 5) 0 ≤ quantile5 s i := by
  rw [quantile5]
  by_cases hb : i * (s.length - 1) / 5 + 1 < s.length
  · have hab : s.getD (i * (s.length - 1) / 5) 0 ≤ s.getD (i * (s.length - 1) / 5 + 1) 0 :=
      sorted_getD_mono s hs _ _ (by omega) hb
    rw [getD_default_irrel s (i * (s.length - 1) / 5 + 1) _ 0 hb]
    have h5 : (0 : ℚ) ≤ ((i * (s.length - 1) % 5 : ℕ) : ℚ) / 5 := by positivity
    nlinarith [mul_nonneg h5 (sub_nonneg.mpr hab)]
  · rw [List.getD_eq_default s _
      (show s.length ≤ i * (s.length - 1) / 5 + 1 by omega)]
    simp [sub_self]

/-- A quantile edge is at most the order statistic just above its lower
index. -/
theorem quantile5_upper (s : List ℚ) (hs : List.Sorted (· ≤ ·) s) (i : ℕ)
    (hb : i * (s.length - 1) / 5 + 1 < s.length) :
    quantile5 s i ≤ s.getD (i * (s.length - 1) / 5 + 1) 0 := by
  rw [quantile5]
  have hab : s.getD (i * (s.length - 1) / 5) 0 ≤ s.getD (i * (s.length - 1) / 5 + 1) 0 :=
    sorted_getD_mono s hs _ _ (by omega) hb
  rw [getD_default_irrel s (i * (s.length - 1) / 5 + 1) _ 0 hb]
  have h51 : ((i * (s.length - 1) % 5 : ℕ) : ℚ) / 5 ≤ 1 := by
    rw [div_le_one (by norm_num)]
    have : i * (s.length - 1) % 5 < 5 := Nat.mod_lt _ (by norm_num)
    exact_mod_cast le_of_lt this
  nlinarith [mul_le_mul_of_nonneg_right h51 (sub_nonneg.mpr hab)]

/-- On a strictly sorted batch a quantile edge is strictly below the
next order statistic. -/
theorem quantile5_lt_next (s : List ℚ) (hst : s.Pairwise (· < ·)) (i : ℕ)
    (hb : i * (s.length - 1) / 5 + 1 < s.length) :
    quantile5 s i < s.getD (i * (s.length - 1) / 5 + 1) 0 := by
  rw [quantile5]
  have hab : s.getD (i * (s.length - 1) / 5) 0 < s.getD (i * (s.length - 1) / 5 + 1) 0 :=
    strict_getD_lt s hst _ _ (by omega) hb
  rw [getD_default_irrel s (i * (s.length - 1) / 5 + 1) _ 0 hb]
  have h51 : ((i * (s.length - 1) % 5 : ℕ) : ℚ) / 5 < 1 := by
    rw [div_lt_one (by norm_num)]
    have : i * (s.length - 1) % 5 < 5 := Nat.mod_lt _ (by norm_num)
    exact_mod_cast this
  nlinarith [mul_lt_mul_of_pos_right h51 (sub_pos.mpr hab)]

/-- Quantile edges are nondecreasing on a sorted batch. -/
theorem quantile5_mono (s : List ℚ) (hs : List.Sorted (· ≤ ·) s) (i : ℕ) (hi : i ≤ 4) :
    quantile5 s i ≤ quantile5 s (i + 1) := by
  rcases Nat.eq_zero_or_pos s.length with h0 | hpos
  · have hs0 : s = [] := List.length_eq_zero.mp h0
    subst hs0
    simp [quantile5]
  have hle : i * (s.length - 1) ≤ (i + 1) * (s.length - 1) :=
    Nat.mul_le_mul_right _ (by omega)
  have h5 : (i + 1) * (s.length - 1) ≤ 5 * (s.length - 1) :=
    Nat.mul_le_mul_right _ (by omega)
  have hK12 : i * (s.length - 1) / 5 ≤ (i + 1) * (s.length - 1) / 5 :=
    Nat.div_le_div_right hle
  have hK2m : (i + 1) * (s.length - 1) / 5 ≤ s.length - 1 := by omega
  rcases Nat.lt_or_ge (i * (s.length - 1) / 5) ((i + 1) * (s.length - 1) / 5) with hlt | hge
  · have h1 : quantile5 s i ≤ s.getD (i * (s.length - 1) / 5 + 1) 0 :=
      quantile5_upper s hs i (by omega)
    have h2 : s.getD (i * (s.length - 1) / 5 + 1) 0 ≤
        s.getD ((i + 1) * (s.length - 1) / 5) 0 :=
      sorted_getD_mono s hs _ _ (by omega) (by omega)
    have h3 : s.getD ((i + 1) * (s.length - 1) / 5) 0 ≤ quantile5 s (i + 1) :=
      quantile5_lower s hs (i + 1) (by omega)
    linarith
  · have hKeq : (i + 1) * (s.length - 1) / 5 = i * (s.length - 1) / 5 := by omega
    have hRle : i * (s.length - 1) % 5 ≤ (i + 1) * (s.length - 1) % 5 := by
      have hA : (i + 1) * (s.length - 1) = i * (s.length - 1) + (s.length - 1) := by ring
      omega
    rw [quantile5, quantile5, hKeq]
    by_cases hb : i * (s.length - 1) / 5 + 1 < s.length
    · have hab : s.getD (i * (s.length - 1) / 5) 0 ≤
          s.getD (i * (s.length - 1) / 5 + 1) 0 :=
        sorted_getD_mono s hs _ _ (by omega) hb
      rw [getD_default_irrel s (i * (s.length - 1) / 5 + 1) _ 0 hb]
      have hfrac : ((i * (s.length - 1) % 5 : ℕ) : ℚ) / 5 ≤
          (((i + 1) * (s.length - 1) % 5 : ℕ) : ℚ) / 5 := by
        apply (div_le_div_iff_of_pos_right (by norm_num)).mpr
        exact_mod_cast hRle
      nlinarith [mul_le_mul_of_nonneg_right hfrac (sub_nonneg.mpr hab)]
    · rw [List.getD_eq_default s _
        (show s.length ≤ i * (s.length - 1) / 5 + 1 by omega)]
      simp [sub_self]

/-- Reflection: evaluating the quintile edges on the value-reversed list
gives the negated opposite edges.  The hypothesis says t is the reversal
of the negation of s. -/
theorem quantile5_reflect (t s : List ℚ) (hts : t.length = s.length)
    (ht : ∀ k, k < s.length → t.getD k 0 = - s.getD (s.length - 1 - k) 0)
    (j : ℕ) (hj : j ≤ 5) :
    quantile5 t j = - quantile5 s (5 - j) := by
  rcases Nat.eq_zero_or_pos s.length with h0 | hpos
  · have hs0 : s = [] := List.length_eq_zero.mp h0
    have ht0 : t = [] := List.length_eq_zero.mp (by omega)
    subst hs0
    subst ht0
    simp [quantile5]
  have hA5 : j * (s.length - 1) ≤ 5 * (s.length - 1) := Nat.mul_le_mul_right _ hj
  have hsub : (5 - j) * (s.length - 1) = 5 * (s.length - 1) - j * (s.length - 1) :=
    Nat.sub_mul 5 j _
  have hKm : j * (s.length - 1) / 5 ≤ s.length - 1 := by omega
  rcases Nat.eq_zero_or_pos (j * (s.length - 1) % 5) with hR0 | hRpos
  · have hK2 : (5 - j) * (s.length - 1) / 5 =
        s.length - 1 - j * (s.length - 1) / 5 := by omega
    have hR2 : (5 - j) * (s.length - 1) % 5 = 0 := by omega
    rw [quantile5, quantile5, hts, hK2, hR2, hR0]
    rw [ht (j * (s.length - 1) / 5) (by omega)]
    push_cast
    ring
  · have hj4 : j ≤ 4 := by
      by_contra hj5
      have hj5' : j = 5 := by omega
      subst hj5'
      rw [Nat.mul_mod_right 5 _] at hRpos
      omega
    have hA4 : j * (s.length - 1) ≤ 4 * (s.length - 1) := Nat.mul_le_mul_right _ hj4
    have hm1 : 1 ≤ s.length - 1 := by
      by_contra hm0
      have hz : s.length - 1 = 0 := by omega
      rw [hz, Nat.mul_zero] at hRpos
      simp at hRpos
    have hK1 : j * (s.length - 1) / 5 + 1 ≤ s.length - 1 := by omega
    have hK2 : (5 - j) * (s.length - 1) / 5 =
        s.length - 1 - j * (s.length - 1) / 5 - 1 := by omega
    have hR2 : (5 - j) * (s.length - 1) % 5 = 5 - j * (s.length - 1) % 5 := by omega
    have hR5 : j * (s.length - 1) % 5 ≤ 5 := le_of_lt (Nat.mod_lt _ (by norm_num))
    rw [quantile5, quantile5, hts, hK2, hR2]
    rw [getD_default_irrel t (j * (s.length - 1) / 5 + 1) _ 0 (by omega)]
    rw [ht (j * (s.length - 1) / 5) (by omega), ht (j * (s.length - 1) / 5 + 1) (by omega)]
    rw [getD_default_irrel s (s.length - 1 - j * (s.length - 1) / 5 - 1 + 1) _ 0 (by omega)]
    have hi1 : s.length - 1 - (j * (s.length - 1) / 5 + 1) =
        s.length - 1 - j * (s.length - 1) / 5 - 1 := by omega
    have hi2 : s.length - 1 - j * (s.length - 1) / 5 - 1 + 1 =
        s.length - 1 - j * (s.length - 1) / 5 := by omega
    rw [hi1, hi2, Nat.cast_sub hR5]
    push_cast
    ring

/-- Sorting the negated batch reverses the negated sort. -/
theorem sortedList_map_neg (xs : List ℚ) :
    sortedList (xs.map (fun x => -x)) = ((sortedList xs).map (fun x => -x)).reverse := by
  have p1 : List.Perm (sortedList (xs.map (fun x => -x))) (xs.map (fun x => -x)) :=
    sortedList_perm _
  have p2 : List.Perm ((sortedList xs).map (fun x => -x)) (xs.map (fun x => -x)) :=
    (sortedList_perm xs).map _
  have p3 : List.Perm (((sortedList xs).map (fun x => -x)).reverse)
      ((sortedList xs).map (fun x => -x)) := List.reverse_perm _
  refine List.eq_of_perm_of_sorted (p1.trans (p2.symm.trans p3.symm))
    (sortedList_sorted _) ?_
  refine List.pairwise_reverse.mpr ?_
  refine List.pairwise_map.mpr ?_
  exact (sortedList_sorted xs).imp (fun h => neg_le_neg h)

/-- getD on the reversed negated list. -/
theorem getD_reverse_map_neg (s : List ℚ) (k : ℕ) (hk : k < s.length) :
    ((s.map (fun x => -x)).reverse).getD k 0 = - s.getD (s.length - 1 - k) 0 := by
  have hl : ((s.map (fun x => -x)).reverse).length = s.length := by simp
  rw [List.getD_eq_getElem _ 0 (by omega), List.getD_eq_getElem s 0 (by omega)]
  rw [List.getElem_reverse, List.getElem_map]
  simp

/-- Bucket determination, case 1. -/
theorem bucketOf_eq1 (es : List ℚ) (v : ℚ) (h : v ≤ es.getD 1 0) :
    bucketOf es v = 1 := by
  rw [bucketOf, if_pos h]

/-- Bucket determination, case 2. -/
theorem bucketOf_eq2 (es : List ℚ) (v : ℚ) (h1 : ¬ v ≤ es.getD 1 0)
    (h2 : v ≤ es.getD 2 0) : bucketOf es v = 2 := by
  rw [bucketOf, if_neg h1, if_pos h2]

/-- Bucket determination, case 3. -/
theorem bucketOf_eq3 (es : List ℚ) (v : ℚ) (h1 : ¬ v ≤ es.getD 1 0)
    (h2 : ¬ v ≤ es.getD 2 0) (h3 : v ≤ es.getD 3 0) : bucketOf es v = 3 := by
  rw [bucketOf, if_neg h1, if_neg h2, if_pos h3]

/-- Bucket determination, case 4. -/
theorem bucketOf_eq4 (es : List ℚ) (v : ℚ) (h1 : ¬ v ≤ es.getD 1 0)
    (h2 : ¬ v ≤ es.getD 2 0) (h3 : ¬ v ≤ es.getD 3 0) (h4 : v ≤ es.getD 4 0) :
    bucketOf es v = 4 := by
  rw [bucketOf, if_neg h1, if_neg h2, if_neg h3, if_pos h4]

/-- Bucket determination, case 5. -/
theorem bucketOf_eq5 (es : List ℚ) (v : ℚ) (h1 : ¬ v ≤ es.getD 1 0)
    (h2 : ¬ v ≤ es.getD 2 0) (h3 : ¬ v ≤ es.getD 3 0) (h4 : ¬ v ≤ es.getD 4 0) :
    bucketOf es v = 5 := by
  rw [bucketOf, if_neg h1, if_neg h2, if_neg h3, if_neg h4]

/-- Claim C7 (counterexample): on the six-customer batch
[10,20,30,40,50,60] the customer with recency 50 sits exactly on a
quantile edge: raw cutting with reversed labels scores it 2, while
cutting negated recency with ascending labels scores it 1, so the two
implementations the spec declares interchangeable disagree. -/
theorem c7_reversal_equivalence_counterexample :
    recency_score [10, 20, 30, 40, 50, 60] 50 = 2 ∧
      recency_score_negated [10, 20, 30, 40, 50, 60] 50 = 1 := by
  constructor
  · norm_num [recency_score, qcutScore, bucketOf, edgesOf, quantile5, sortedList,
      List.insertionSort, List.orderedInsert, List.range_succ]
  · norm_num [recency_score_negated, qcutScore, bucketOf, edgesOf, quantile5, sortedList,
      List.insertionSort, List.orderedInsert, List.range_succ]

/-- Claim C7 (amended): the two recency scorings agree on every customer
whose recency value is not exactly one of the four interior quantile
edges; a customer sitting on an interior edge may be scored differently
(see the counterexample). -/
theorem c7_reversal_equivalence_amended (xs : List ℚ) (v : ℚ)
    (h1 : v ≠ quantile5 (sortedList xs) 1) (h2 : v ≠ quantile5 (sortedList xs) 2)
    (h3 : v ≠ quantile5 (sortedList xs) 3) (h4 : v ≠ quantile5 (sortedList xs) 4) :
    recency_score xs v = recency_score_negated xs v := by
  have hm1 : quantile5 (sortedList xs) 1 ≤ quantile5 (sortedList xs) 2 := by
    have := quantile5_mono (sortedList xs) (sortedList_sorted xs) 1 (by norm_num)
    simpa using this
  have hm2 : quantile5 (sortedList xs) 2 ≤ quantile5 (sortedList xs) 3 := by
    have := quantile5_mono (sortedList xs) (sortedList_sorted xs) 2 (by norm_num)
    simpa using this
  have hm3 : quantile5 (sortedList xs) 3 ≤ quantile5 (sortedList xs) 4 := by
    have := quantile5_mono (sortedList xs) (sortedList_sorted xs) 3 (by norm_num)
    simpa using this
  have hrefl : ∀ j, 1 ≤ j → j ≤ 4 →
      (edgesOf (xs.map (fun x => -x))).getD j 0 =
        - quantile5 (sortedList xs) (5 - j) := by
    intro j hj1 hj4
    rw [edgesOf_getD _ j (by omega), sortedList_map_neg]
    exact quantile5_reflect _ _ (by simp)
      (fun k hk => getD_reverse_map_neg (sortedList xs) k hk) j (by omega)
  have f1 : (edgesOf (xs.map (fun x => -x))).getD 1 0 =
      - quantile5 (sortedList xs) 4 := by
    rw [hrefl 1 (by norm_num) (by norm_num)]
  have f2 : (edgesOf (xs.map (fun x => -x))).getD 2 0 =
      - quantile5 (sortedList xs) 3 := by
    rw [hrefl 2 (by norm_num) (by norm_num)]
  have f3 : (edgesOf (xs.map (fun x => -x))).getD 3 0 =
      - quantile5 (sortedList xs) 2 := by
    rw [hrefl 3 (by norm_num) (by norm_num)]
  have f4 : (edgesOf (xs.map (fun x => -x))).getD 4 0 =
      - quantile5 (sortedList xs) 1 := by
    rw [hrefl 4 (by norm_num) (by norm_num)]
  have g1 := edgesOf_getD xs 1 (by norm_num)
  have g2 := edgesOf_getD xs 2 (by norm_num)
  have g3 := edgesOf_getD xs 3 (by norm_num)
  have g4 := edgesOf_getD xs 4 (by norm_num)
  rw [recency_score, recency_score_negated, qcutScore, qcutScore]
  by_cases c1 : v ≤ quantile5 (sortedList xs) 1
  · have hv1 : v < quantile5 (sortedList xs) 1 := lt_of_le_of_ne c1 h1
    rw [bucketOf_eq1 _ _ (by rw [g1]; exact c1),
      bucketOf_eq5 _ _ (by rw [f1]; exact not_le.mpr (by linarith))
        (by rw [f2]; exact not_le.mpr (by linarith))
        (by rw [f3]; exact not_le.mpr (by linarith))
        (by rw [f4]; exact not_le.mpr (by linarith))]
    rfl
  · by_cases c2 : v ≤ quantile5 (sortedList xs) 2
    · have hv2 : v < quantile5 (sortedList xs) 2 := lt_of_le_of_ne c2 h2
      have hv1 : quantile5 (sortedList xs) 1 < v := not_le.mp c1
      rw [bucketOf_eq2 _ _ (by rw [g1]; exact c1) (by rw [g2]; exact c2),
        bucketOf_eq4 _ _ (by rw [f1]; exact not_le.mpr (by linarith))
          (by rw [f2]; exact not_le.mpr (by linarith))
          (by rw [f3]; exact not_le.mpr (by linarith))
          (by rw [f4]; exact neg_le_neg (le_of_lt hv1))]
      rfl
    · by_cases c3 : v ≤ quantile5 (sortedList xs) 3
      · have hv3 : v < quantile5 (sortedList xs) 3 := lt_of_le_of_ne c3 h3
        have hv2 : quantile5 (sortedList xs) 2 < v := not_le.mp c2
        rw [bucketOf_eq3 _ _ (by rw [g1]; exact c1) (by rw [g2]; exact c2)
            (by rw [g3]; exact c3),
          bucketOf_eq3 _ _ (by rw [f1]; exact not_le.mpr (by linarith))
            (by rw [f2]; exact not_le.mpr (by linarith))
            (by rw [f3]; exact neg_le_neg (le_of_lt hv2))]
        rfl
      · by_cases c4 : v ≤ quantile5 (sortedList xs) 4
        · have hv4 : v < quantile5 (sortedList xs) 4 := lt_of_le_of_ne c4 h4
          have hv3 : quantile5 (sortedList xs) 3 < v := not_le.mp c3
          rw [bucketOf_eq4 _ _ (by rw [g1]; exact c1) (by rw [g2]; exact c2)
              (by rw [g3]; exact c3) (by rw [g4]; exact c4),
            bucketOf_eq2 _ _ (by rw [f1]; exact not_le.mpr (by linarith))
              (by rw [f2]; exact neg_le_neg (le_of_lt hv3))]
          rfl
        · have hv4 : quantile5 (sortedList xs) 4 < v := not_le.mp c4
          rw [bucketOf_eq5 _ _ (by rw [g1]; exact c1) (by rw [g2]; exact c2)
              (by rw [g3]; exact c3) (by rw [g4]; exact c4),
            bucketOf_eq1 _ _ (by rw [f1]; exact neg_le_neg (le_of_lt hv4))]
          rfl

/-- Claim C7 (witness): the two scorings agree at recency 15, which
avoids the interior edges 20, 30, 40, 50 of the batch. -/
theorem c7_reversal_equivalence_amended_witness :
    recency_score [10, 20, 30, 40, 50, 60] 15 =
      recency_score_negated [10, 20, 30, 40, 50, 60] 15 :=
  c7_reversal_equivalence_amended [10, 20, 30, 40, 50, 60] 15
    (by norm_num [quantile5, sortedList, List.insertionSort, List.orderedInsert])
    (by norm_num [quantile5, sortedList, List.insertionSort, List.orderedInsert])
    (by norm_num [quantile5, sortedList, List.insertionSort, List.orderedInsert])
    (by norm_num [quantile5, sortedList, List.insertionSort, List.orderedInsert])

/-- Counting a value predicate over a list equals counting the induced
index predicate over the index range. -/
theorem countP_eq_countRange (P : ℚ → Bool) :
    ∀ (s : List ℚ) (Q : ℕ → Bool), (∀ j, j < s.length → P (s.getD j 0) = Q j) →
      s.countP P = ((List.range s.length).filter Q).length := by
  intro s
  induction s with
  | nil => intro Q _; simp
  | cons a t ih =>
    intro Q h
    have h0 : P a = Q 0 := h 0 (by simp)
    have ht : ∀ j, j < t.length → P (t.getD j 0) = Q (j + 1) := by
      intro j hj
      exact h (j + 1) (by simpa using Nat.succ_lt_succ hj)
    have hmap : List.filter Q (List.map Nat.succ (List.range t.length)) =
        List.map Nat.succ (List.filter (Q ∘ Nat.succ) (List.range t.length)) :=
      List.filter_map Nat.succ (List.range t.length)
    have hcongr : List.filter (Q ∘ Nat.succ) (List.range t.length) =
        List.filter (fun j => Q (j + 1)) (List.range t.length) :=
      List.filter_congr (fun x _ => by simp [Function.comp, Nat.succ_eq_add_one])
    rw [List.countP_cons, ih (fun j => Q (j + 1)) ht, List.length_cons,
      List.range_succ_eq_map, List.filter_cons, hmap, hcongr, h0]
    by_cases hq : Q 0
    · rw [if_pos hq, if_pos hq]
      simp
    · rw [if_neg hq, if_neg hq]
      simp

/-- Size of a lower index interval inside the range. -/
theorem length_filter_range_le (b : ℕ) :
    ∀ n, ((List.range n).filter (fun j => decide (j ≤ b))).length = min (b + 1) n := by
  intro n
  induction n with
  | zero => simp
  | succ k ih =>
    rw [List.range_succ, List.filter_append, List.length_append, ih]
    by_cases h : k ≤ b
    · rw [List.filter_cons_of_pos (by simpa using h), List.filter_nil,
        List.length_singleton]
      omega
    · rw [List.filter_cons_of_neg (by simpa using h), List.filter_nil,
        List.length_nil]
      omega

/-- Size of a half-open index interval inside the range. -/
theorem length_filter_range_between (a b : ℕ) :
    ∀ n, ((List.range n).filter (fun j => decide (a < j) && decide (j ≤ b))).length =
      min (b + 1) n - min (a + 1) n := by
  intro n
  induction n with
  | zero => simp
  | succ k ih =>
    rw [List.range_succ, List.filter_append, List.length_append, ih]
    by_cases h1 : a < k
    · by_cases h2 : k ≤ b
      · rw [List.filter_cons_of_pos (by simp [h1, h2]), List.filter_nil,
          List.length_singleton]
        omega
      · rw [List.filter_cons_of_neg (by simp [h1, h2]), List.filter_nil,
          List.length_nil]
        omega
    · rw [List.filter_cons_of_neg (by simp [h1]), List.filter_nil, List.length_nil]
      omega

/-- Size of an upper index interval inside the range. -/
theorem length_filter_range_gt (a : ℕ) :
    ∀ n, ((List.range n).filter (fun j => decide (a < j))).length = n - min (a + 1) n := by
  intro n
  induction n with
  | zero => simp
  | succ k ih =>
    rw [List.range_succ, List.filter_append, List.length_append, ih]
    by_cases h : a < k
    · rw [List.filter_cons_of_pos (by simpa using h), List.filter_nil,
        List.length_singleton]
      omega
    · rw [List.filter_cons_of_neg (by simpa using h), List.filter_nil,
        List.length_nil]
      omega

/-- On a strictly sorted batch, the j-th order statistic is below the
i-th quantile edge exactly when j is at most the edge's index. -/
theorem getD_le_quantile5_iff (s : List ℚ) (hstrict : s.Pairwise (· < ·))
    (i : ℕ) (hi : i ≤ 5) (j : ℕ) (hj : j < s.length) :
    (s.getD j 0 ≤ quantile5 s i ↔ j ≤ i * (s.length - 1) / 5) := by
  have hsorted : List.Sorted (· ≤ ·) s := hstrict.imp le_of_lt
  have hA5 : i * (s.length - 1) ≤ 5 * (s.length - 1) := Nat.mul_le_mul_right _ hi
  have hKm : i * (s.length - 1) / 5 ≤ s.length - 1 := by omega
  constructor
  · intro h
    by_contra hjk
    push_neg at hjk
    have hK1 : i * (s.length - 1) / 5 + 1 < s.length := by omega
    have hup : quantile5 s i < s.getD (i * (s.length - 1) / 5 + 1) 0 :=
      quantile5_lt_next s hstrict i hK1
    have hmono : s.getD (i * (s.length - 1) / 5 + 1) 0 ≤ s.getD j 0 :=
      sorted_getD_mono s hsorted _ j (by omega) hj
    linarith
  · intro h
    have hlow : s.getD (i * (s.length - 1) / 5) 0 ≤ quantile5 s i :=
      quantile5_lower s hsorted i (by omega)
    have hmono : s.getD j 0 ≤ s.getD (i * (s.length - 1) / 5) 0 :=
      sorted_getD_mono s hsorted j _ h (by omega)
    linarith

/-- On a tie-free batch the bucket of the j-th order statistic is read
off the four quantile indices. -/
theorem bucketOf_index_char (xs : List ℚ) (hnd : xs.Nodup)
    (j : ℕ) (hj : j < (sortedList xs).length) :
    bucketOf (edgesOf xs) ((sortedList xs).getD j 0) =
      if j ≤ 1 * ((sortedList xs).length - 1) / 5 then 1
      else if j ≤ 2 * ((sortedList xs).length - 1) / 5 then 2
      else if j ≤ 3 * ((sortedList xs).length - 1) / 5 then 3
      else if j ≤ 4 * ((sortedList xs).length - 1) / 5 then 4
      else 5 := by
  have hstrict := sortedList_strict xs hnd
  have hiff : ∀ k, 1 ≤ k → k ≤ 4 →
      ((sortedList xs).getD j 0 ≤ (edgesOf xs).getD k 0 ↔
        j ≤ k * ((sortedList xs).length - 1) / 5) := by
    intro k hk1 hk4
    rw [edgesOf_getD xs k (by omega)]
    exact getD_le_quantile5_iff (sortedList xs) hstrict k (by omega) j hj
  rw [bucketOf]
  simp only [hiff 1 (by norm_num) (by norm_num), hiff 2 (by norm_num) (by norm_num),
    hiff 3 (by norm_num) (by norm_num), hiff 4 (by norm_num) (by norm_num)]

/-- Claim C9: on a batch of N distinct values with N at least 5, every
one of the five quantile buckets holds either the floor or the ceiling
of N/5 customers.  The same statement covers all three metric cuts,
whose inputs (recency, first-method frequency ranks, monetary) are the
batch being cut. -/
theorem c9_bucket_balance (xs : List ℚ) (h5 : 5 ≤ xs.length) (hnd : xs.Nodup)
    (i : ℕ) (h1 : 1 ≤ i) (hi5 : i ≤ 5) :
    bucketCount xs i = xs.length / 5 ∨ bucketCount xs i = (xs.length + 4) / 5 := by
  have hlen := sortedList_length xs
  have hcount : bucketCount xs i =
      (sortedList xs).countP (fun v => bucketOf (edgesOf xs) v == i) := by
    rw [bucketCount]
    exact ((sortedList_perm xs).countP_eq _).symm
  have hchar : ∀ j, j < (sortedList xs).length →
      ((fun v => bucketOf (edgesOf xs) v == i) ((sortedList xs).getD j 0)) =
      ((fun j =>
        (if j ≤ 1 * ((sortedList xs).length - 1) / 5 then 1
          else if j ≤ 2 * ((sortedList xs).length - 1) / 5 then 2
          else if j ≤ 3 * ((sortedList xs).length - 1) / 5 then 3
          else if j ≤ 4 * ((sortedList xs).length - 1) / 5 then 4
          else 5) == i) j) := by
    intro j hj
    have hb := bucketOf_index_char xs hnd j hj
    simp only [hb]
  rw [hcount, countP_eq_countRange _ (sortedList xs) _ hchar]
  interval_cases i
  · rw [List.filter_congr (fun j hjr =>
      (show ((if j ≤ 1 * ((sortedList xs).length - 1) / 5 then 1
          else if j ≤ 2 * ((sortedList xs).length - 1) / 5 then 2
          else if j ≤ 3 * ((sortedList xs).length - 1) / 5 then 3
          else if j ≤ 4 * ((sortedList xs).length - 1) / 5 then 4
          else 5) == 1) =
        (fun j => decide (j ≤ 1 * ((sortedList xs).length - 1) / 5)) j from by
        split_ifs <;>
          (rw [Bool.eq_iff_iff]
           simp only [Bool.and_eq_true, decide_eq_true_eq, beq_iff_eq]
           constructor <;> (intro hcc; first | trivial | omega))))]
    rw [length_filter_range_le, hlen]
    generalize xs.length = n at h5 ⊢
    obtain ⟨q, r, hr, rfl⟩ : ∃ q r, r < 5 ∧ n = 5 * q + r :=
      ⟨n / 5, n % 5, Nat.mod_lt _ (by norm_num), (Nat.div_add_mod n 5).symm⟩
    interval_cases r <;> omega
  · rw [List.filter_congr (fun j hjr =>
      (show ((if j ≤ 1 * ((sortedList xs).length - 1) / 5 then 1
          else if j ≤ 2 * ((sortedList xs).length - 1) / 5 then 2
          else if j ≤ 3 * ((sortedList xs).length - 1) / 5 then 3
          else if j ≤ 4 * ((sortedList xs).length - 1) / 5 then 4
          else 5) == 2) =
        (fun j => decide (1 * ((sortedList xs).length - 1) / 5 < j) &&
          decide (j ≤ 2 * ((sortedList xs).length - 1) / 5)) j from by
        split_ifs <;>
          (rw [Bool.eq_iff_iff]
           simp only [Bool.and_eq_true, decide_eq_true_eq, beq_iff_eq]
           constructor <;> (intro hcc; first | trivial | omega))))]
    rw [length_filter_range_between, hlen]
    generalize xs.length = n at h5 ⊢
    obtain ⟨q, r, hr, rfl⟩ : ∃ q r, r < 5 ∧ n = 5 * q + r :=
      ⟨n / 5, n % 5, Nat.mod_lt _ (by norm_num), (Nat.div_add_mod n 5).symm⟩
    interval_cases r <;> omega
  · rw [List.filter_congr (fun j hjr =>
      (show ((if j ≤ 1 * ((sortedList xs).length - 1) / 5 then 1
          else if j ≤ 2 * ((sortedList xs).length - 1) / 5 then 2
          else if j ≤ 3 * ((sortedList xs).length - 1) / 5 then 3
          else if j ≤ 4 * ((sortedList xs).length - 1) / 5 then 4
          else 5) == 3) =
        (fun j => decide (2 * ((sortedList xs).length - 1) / 5 < j) &&
          decide (j ≤ 3 * ((sortedList xs).length - 1) / 5)) j from by
        split_ifs <;>
          (rw [Bool.eq_iff_iff]
           simp only [Bool.and_eq_true, decide_eq_true_eq, beq_iff_eq]
           constructor <;> (intro hcc; first | trivial | omega))))]
    rw [length_filter_range_between, hlen]
    generalize xs.length = n at h5 ⊢
    obtain ⟨q, r, hr, rfl⟩ : ∃ q r, r < 5 ∧ n = 5 * q + r :=
      ⟨n / 5, n % 5, Nat.mod_lt _ (by norm_num), (Nat.div_add_mod n 5).symm⟩
    interval_cases r <;> omega
  · rw [List.filter_congr (fun j hjr =>
      (show ((if j ≤ 1 * ((sortedList xs).length - 1) / 5 then 1
          else if j ≤ 2 * ((sortedList xs).length - 1) / 5 then 2
          else if j ≤ 3 * ((sortedList xs).length - 1) / 5 then 3
          else if j ≤ 4 * ((sortedList xs).length - 1) / 5 then 4
          else 5) == 4) =
        (fun j => decide (3 * ((sortedList xs).length - 1) / 5 < j) &&
          decide (j ≤ 4 * ((sortedList xs).length - 1) / 5)) j from by
        split_ifs <;>
          (rw [Bool.eq_iff_iff]
           simp only [Bool.and_eq_true, decide_eq_true_eq, beq_iff_eq]
           constructor <;> (intro hcc; first | trivial | omega))))]
    rw [length_filter_range_between, hlen]
    generalize xs.length = n at h5 ⊢
    obtain ⟨q, r, hr, rfl⟩ : ∃ q r, r < 5 ∧ n = 5 * q + r :=
      ⟨n / 5, n % 5, Nat.mod_lt _ (by norm_num), (Nat.div_add_mod n 5).symm⟩
    interval_cases r <;> omega
  · rw [List.filter_congr (fun j hjr =>
      (show ((if j ≤ 1 * ((sortedList xs).length - 1) / 5 then 1
          else if j ≤ 2 * ((sortedList xs).length - 1) / 5 then 2
          else if j ≤ 3 * ((sortedList xs).length - 1) / 5 then 3
          else if j ≤ 4 * ((sortedList xs).length - 1) / 5 then 4
          else 5) == 5) =
        (fun j => decide (4 * ((sortedList xs).length - 1) / 5 < j)) j from by
        split_ifs <;>
          (rw [Bool.eq_iff_iff]
           simp only [Bool.and_eq_true, decide_eq_true_eq, beq_iff_eq]
           constructor <;> (intro hcc; first | trivial | omega))))]
    rw [length_filter_range_gt, hlen]
    generalize xs.length = n at h5 ⊢
    obtain ⟨q, r, hr, rfl⟩ : ∃ q r, r < 5 ∧ n = 5 * q + r :=
      ⟨n / 5, n % 5, Nat.mod_lt _ (by norm_num), (Nat.div_add_mod n 5).symm⟩
    interval_cases r <;> omega

/-- Claim C9 (witness): on the distinct five-value batch [1,2,3,4,5]
bucket 1 holds exactly one customer, the floor (and ceiling) of 5/5. -/
theorem c9_bucket_balance_witness :
    bucketCount [1, 2, 3, 4, 5] 1 = ([1, 2, 3, 4, 5] : List ℚ).length / 5 ∨
      bucketCount [1, 2, 3, 4, 5] 1 = (([1, 2, 3, 4, 5] : List ℚ).length + 4) / 5 :=
  c9_bucket_balance [1, 2, 3, 4, 5] (by norm_num) (by norm_num) 1 (by norm_num)
    (by norm_num)

/-- Claim C10 (witness): a customer interested only in COCUK, with a
segment outside the isin set and no ERKEK interest, is selected. -/
theorem c10_cocuk_always_selected_witness :
    (∀ row : Row, (row ∈ flo_male_child [⟨"k1", "COCUK", 5, 4⟩] ↔
        row ∈ dfMerged [⟨"k1", "COCUK", 5, 4⟩] ∧
        ((case2segcond row = true ∧ strContains (rowGet row colCats) sERKEK = true) ∨
          strContains (rowGet row colCats) sCOCUK = true))) ∧
      (([⟨"k1", "COCUK", 5, 4⟩] : List Cust).getD 0 dummyCust).master_id ∈
        flo_male_child_ids [⟨"k1", "COCUK", 5, 4⟩] :=
  c10_cocuk_always_selected [⟨"k1", "COCUK", 5, 4⟩] 0 (by decide) (by decide)

end RFM
